import Mathlib

/-!
Verification of the ballistic trajectory core of the idle-cannon repository.

The embedding translates the JavaScript sources into Lean over exact rational
arithmetic (JS doubles are idealized as `ℚ`, a standard shallow-embedding
convention).  The JS `Math` library is modelled by an oracle record carrying
the values of `Math.PI`, `Math.cos` and `Math.sin`; comparisons of the form
`Math.sqrt d <= c` with `0 ≤ c` are embedded in the equivalent squared form
`d ≤ c ^ 2`, which avoids square roots while preserving the branch taken.
Source loops that JavaScript runs unboundedly are embedded as fuel-indexed
recursions together with theorems showing the fuel never runs out (the result
stabilizes once the fuel covers the loop's real iteration count).
-/

namespace IdleCannon

/-! ## Trajectory solver: src/js/trajectoryUtils.js, `calculateLaunchAngles` -/

/-- The JS `Math` builtins used by `calculateLaunchAngles`: `Math.PI`,
`Math.cos`, `Math.sin`, kept abstract as an oracle. -/
structure MathOracle where
  pi : ℚ
  cos : ℚ → ℚ
  sin : ℚ → ℚ

/-- The destructured parameter object of `calculateLaunchAngles`
(src/js/trajectoryUtils.js lines 20-28).  `frictionAir` defaults to
`0.01` at JS call sites; here it is always explicit. -/
structure SolverParams where
  barrelStartX : ℚ
  barrelStartY : ℚ
  barrelLength : ℚ
  projectileSpeed : ℚ
  gravity : ℚ
  targetX : ℚ
  targetY : ℚ
  frictionAir : ℚ

/-- `const timeStep = 0.1` (line 40). -/
def timeStep : ℚ := 1 / 10

/-- `const maxSimulationTime = 10.0` (line 41). -/
def maxSimulationTime : ℚ := 10

/-- `const hitTolerance = 20` (line 42). -/
def hitTolerance : ℚ := 20

/-- `const minAngle = -5 * (Math.PI / 180)` (line 35). -/
def solverMinAngle (o : MathOracle) : ℚ := -5 * (o.pi / 180)

/-- `const maxAngle = 185 * (Math.PI / 180)` (line 36). -/
def solverMaxAngle (o : MathOracle) : ℚ := 185 * (o.pi / 180)

/-- `const angleStepSize = 0.1 * (Math.PI / 180)` (line 37). -/
def angleStepSize (o : MathOracle) : ℚ := (1 / 10) * (o.pi / 180)

/-- Projectile state inside the per-angle simulation loop: the mutable
`x`, `y`, `vx`, `vy` of lines 49-55. -/
structure SimState where
  x : ℚ
  y : ℚ
  vx : ℚ
  vy : ℚ
deriving DecidableEq

/-- The body of the inner `while` loop up to the gravity update
(src/js/trajectoryUtils.js lines 59-78), in source order: position advance
using the current velocity, then air resistance (guarded by `speed > 0`,
embedded as `vx² + vy² > 0`), then gravity.  The `closestDistance`
accumulator of the source is omitted: it is never read after the loop. -/
def simBodyStep (p : SolverParams) (s : SimState) : SimState :=
  let x := s.x + s.vx * timeStep
  let y := s.y + s.vy * timeStep
  let speedSq := s.vx * s.vx + s.vy * s.vy
  let clampedFactor := min (p.frictionAir * timeStep) (99 / 100)
  let vx := if 0 < speedSq then s.vx * (1 - clampedFactor) else s.vx
  let vy := if 0 < speedSq then s.vy * (1 - clampedFactor) else s.vy
  { x := x, y := y, vx := vx, vy := vy + p.gravity * timeStep }

/-- Position advance of lines 60-61 in isolation: `x += vx*dt; y += vy*dt`. -/
def advancePosition (s : SimState) : SimState :=
  { s with x := s.x + s.vx * timeStep, y := s.y + s.vy * timeStep }

/-- Air-resistance damping of lines 65-73 in isolation: when the speed is
positive, multiply both velocity components by
`1 - min(frictionAir * dt, 0.99)`. -/
def applyAirResistance (p : SolverParams) (s : SimState) : SimState :=
  if 0 < s.vx * s.vx + s.vy * s.vy then
    { s with
      vx := s.vx * (1 - min (p.frictionAir * timeStep) (99 / 100)),
      vy := s.vy * (1 - min (p.frictionAir * timeStep) (99 / 100)) }
  else s

/-- Gravity update of line 76 in isolation: `vy += gravity * dt`. -/
def applyGravity (p : SolverParams) (s : SimState) : SimState :=
  { s with vy := s.vy + p.gravity * timeStep }

/-- Modelled from the spec: the integration-step order the specification
asserts (spec section 4.1 and claim C1): velocity damped first, then gravity
added to the vertical velocity, and only then the position advanced by the
now-updated velocity times `dt`. -/
def specIntegrationStep (p : SolverParams) (s : SimState) : SimState :=
  let clampedFactor := min (p.frictionAir * timeStep) (99 / 100)
  let vx := s.vx * (1 - clampedFactor)
  let vy := s.vy * (1 - clampedFactor) + p.gravity * timeStep
  { x := s.x + vx * timeStep, y := s.y + vy * timeStep, vx := vx, vy := vy }

/-- Squared distance from the simulated point to the target, embedding the
`Math.sqrt(Math.pow(x - targetX, 2) + Math.pow(y - targetY, 2))` of
lines 81-83 (compared squared against the squared tolerance). -/
def distSqToTarget (p : SolverParams) (s : SimState) : ℚ :=
  (s.x - p.targetX) ^ 2 + (s.y - p.targetY) ^ 2

/-- How one per-angle simulation run ends: the target was hit within
tolerance (line 88), the projectile overshot past the 500 px bounds
(line 94), or simulated time passed `maxSimulationTime` (the `while`
guard failing). -/
inductive ExitKind where
  | hit : ExitKind
  | outOfBounds : ExitKind
  | timeExpired : ExitKind
deriving DecidableEq

/-- The inner `while (t <= maxSimulationTime)` loop of lines 58-96.  `k`
counts completed iterations, so the source's `t` is `k * timeStep` (the
source adds `timeStep` to `t` at the end of each full iteration).  The
result carries the exit kind and the number of executed iterations; `none`
is returned only if the fuel runs out first, and `simLoop_exits` below
shows fuel `102` always suffices. -/
def simLoop (p : SolverParams) : ℕ → ℕ → SimState → Option (ExitKind × ℕ)
  | 0, _, _ => none
  | fuel + 1, k, s =>
    if (k : ℚ) * timeStep ≤ maxSimulationTime then
      let s1 := simBodyStep p s
      if distSqToTarget p s1 ≤ hitTolerance ^ 2 then some (ExitKind.hit, k + 1)
      else if p.targetX + 500 < s1.x ∨ p.targetY + 500 < s1.y then
        some (ExitKind.outOfBounds, k + 1)
      else simLoop p fuel (k + 1) s1
    else some (ExitKind.timeExpired, k)

/-- Initial state of a per-angle run (lines 45-55): the projectile starts at
the barrel end and its velocity components are `cos/sin(angle) * speed`. -/
def initSimState (p : SolverParams) (o : MathOracle) (angle : ℚ) : SimState :=
  { x := p.barrelStartX + o.cos angle * p.barrelLength
    y := p.barrelStartY + o.sin angle * p.barrelLength
    vx := o.cos angle * p.projectileSpeed
    vy := o.sin angle * p.projectileSpeed }

/-- Whether the run for one candidate angle records the angle as a solution
(the `solutions.push(angle)` of line 89 happens exactly on a `hit` exit). -/
def angleHits (p : SolverParams) (o : MathOracle) (angle : ℚ) : Bool :=
  match simLoop p 102 0 (initSimState p o angle) with
  | some (ExitKind.hit, _) => true
  | _ => false

/-- The candidate angles visited by the sweep
`for (let angle = minAngle; angle <= maxAngle; angle += angleStepSize)`
(line 44), as a fuel-indexed recursion. -/
def sweepAngles (o : MathOracle) : ℕ → ℚ → List ℚ
  | 0, _ => []
  | fuel + 1, angle =>
    if angle ≤ solverMaxAngle o then
      angle :: sweepAngles o fuel (angle + angleStepSize o)
    else []

/-- The `solutions` array accumulated by the sweep of lines 44-97: each
visited angle is appended exactly when its run hits the target. -/
def sweepSolutions (p : SolverParams) (o : MathOracle) : ℕ → ℚ → List ℚ
  | 0, _ => []
  | fuel + 1, angle =>
    if angle ≤ solverMaxAngle o then
      (if angleHits p o angle then [angle] else []) ++
        sweepSolutions p o fuel (angle + angleStepSize o)
    else []

/-- `isDuplicate` of lines 102-104: some already-kept solution is within
`0.05` rad of the candidate. -/
def isDuplicateOf (uniq : List ℚ) (angle : ℚ) : Bool :=
  uniq.any fun existing => |existing - angle| < 1 / 20

/-- The deduplication loop of lines 100-109: walk the found solutions in
order, appending each one that is not within `0.05` rad of an
already-kept solution. -/
def dedupLoop : List ℚ → List ℚ → List ℚ
  | acc, [] => acc
  | acc, a :: rest =>
    if isDuplicateOf acc a then dedupLoop acc rest
    else dedupLoop (acc ++ [a]) rest

/-- `uniqueSolutions` of lines 100-109. -/
def uniqueSolutions (solutions : List ℚ) : List ℚ := dedupLoop [] solutions

/-- Fuel for the angle sweep; `sweepAngles_eq_range` shows the sweep runs
exactly 1901 iterations whenever `0 < pi`, so fuel 1902 is never exhausted. -/
def sweepFuel : ℕ := 1902

/-- `calculateLaunchAngles` (src/js/trajectoryUtils.js lines 20-111):
short-circuit for targets at or behind the cannon (lines 30-32), angle sweep
accumulating solutions, deduplication, and the final
`uniqueSolutions.length > 0 ? uniqueSolutions : null`. -/
def calculateLaunchAngles (p : SolverParams) (o : MathOracle) : Option (List ℚ) :=
  if p.targetX ≤ p.barrelStartX then none
  else
    let solutions := sweepSolutions p o sweepFuel (solverMinAngle o)
    let uniq := uniqueSolutions solutions
    if 0 < uniq.length then some uniq else none

/-! ## Firing-Table Builder: src/unnamed/part_009 (second document),
class `FiringTableBuilder` -/

/-- `this.gridSize = 10` (part_009 line 345). -/
def gridSize : ℤ := 10

/-- `this.dotSize = 2` (part_009 line 346). -/
def dotSize : ℚ := 2

/-- `this.maxAngle = 360` (part_009 line 352). -/
def builderMaxAngle : ℕ := 360

/-- `const MIN_DAMAGE_VELOCITY = 5` (part_009 line 334). -/
def MIN_DAMAGE_VELOCITY : ℚ := 5

/-- `CONFIG.PHYSICS.GROUND_Y` (src/js/config.js line 52). -/
def GROUND_Y : ℚ := 500

/-- `this.maxWaitTime = 10000` milliseconds (part_009 line 358). -/
def maxWaitTime : ℚ := 10000

/-- One probe-grid dot (part_009 `initializeGrid`, lines 336-346 of the
first document and 363-375 of the second): a position and a mutable
`hit` flag. The drawn dot size is the separate constant `dotSize`. -/
structure Dot where
  x : ℤ
  y : ℤ
  hit : Bool
deriving DecidableEq

/-- The coordinates `0, gridSize, 2*gridSize, ...` strictly below `size`
generated by `for (let v = 0; v < size; v += this.gridSize)`. -/
def axisPoints (size : ℕ) : List ℤ :=
  ((List.range size).filter fun i => i % 10 = 0).map Int.ofNat

/-- `initializeGrid` (part_009 lines 365-377): one unhit dot per grid
point of the canvas, x-major as in the source's nested loops. -/
def initGrid (width height : ℕ) : List Dot :=
  (axisPoints width).flatMap fun x =>
    (axisPoints height).map fun y => { x := x, y := y, hit := false }

/-- The builder's `firingTable`: the JS nested object
`{ x: { y: [angle, ...] } }` modelled as a partial map from cell
coordinates to the angle list; `none` is an absent key. -/
def FTable : Type := ℤ → ℤ → Option (List ℕ)

/-- The table-structure initialization of `startBuilding` (part_009
lines 396-401): an empty angle list for every grid cell of the canvas,
no other keys. -/
def initFiringTable (width height : ℕ) : FTable := fun x y =>
  if x ∈ axisPoints width ∧ y ∈ axisPoints height then some [] else none

/-- JS `Math.round`: round half toward positive infinity. -/
def jsRound (q : ℚ) : ℤ := ⌊q + 1 / 2⌋

/-- `Math.round(coord / this.gridSize) * this.gridSize` of
`recordHitsForAngle` (part_009 lines 567-568). -/
def roundGrid (v : ℤ) : ℤ := jsRound ((v : ℚ) / 10) * 10

/-- Point update of the table at one cell. -/
def updateCell (t : FTable) (cx cy : ℤ) (l : List ℕ) : FTable := fun x y =>
  if x = cx ∧ y = cy then some l else t x y

/-- The body of the `hitDots.forEach` of `recordHitsForAngle` (part_009
lines 563-578): look up the dot by index, and when it is marked hit,
append the current angle to the rounded cell's list unless the cell is
absent (the JS truthiness guard on `firingTable[gridX][gridY]`) or the
angle is already recorded. -/
def recordDot (dots : List Dot) (angle : ℕ) (t : FTable) (idx : ℕ) : FTable :=
  match dots[idx]? with
  | none => t
  | some dot =>
    if dot.hit then
      let gridX := roundGrid dot.x
      let gridY := roundGrid dot.y
      match t gridX gridY with
      | some l => if angle ∈ l then t else updateCell t gridX gridY (l ++ [angle])
      | none => t
    else t

/-- `recordHitsForAngle` (part_009 lines 563-578): fold the recording step
over the indices collected in `hitDots`. -/
def recordHitsForAngle (dots : List Dot) (hitDots : List ℕ) (angle : ℕ)
    (t : FTable) : FTable :=
  hitDots.foldl (recordDot dots angle) t

/-- The empty-entry stripping of `finishBuilding` (part_009
lines 586-595): keep exactly the cells whose angle list is non-empty. -/
def cleanTable (t : FTable) : FTable := fun x y =>
  match t x y with
  | some l => if l = [] then none else some l
  | none => none

/-- Reading a cell of a firing table: the recorded angle list, with an
absent key giving the empty result (JS indexing an absent key yields
`undefined`, which every consumer of the exported
`{ x: { y: [...] } }` artifact treats as no angles). -/
def lookupAngles (t : FTable) (x y : ℤ) : List ℕ := (t x y).getD []

/-- The live cannonball as the builder reads it from the physics body:
position, bounding-circle radius (`body.circleRadius || 8`, already
resolved), and velocity. -/
structure Ball where
  x : ℚ
  y : ℚ
  radius : ℚ
  vx : ℚ
  vy : ℚ
deriving DecidableEq

/-- The per-dot distance test of `checkDotCollisions` (part_009
lines 548-558): `Math.sqrt((ballX-dot.x)² + (ballY-dot.y)²)` at most
`ballRadius + dotSize`, embedded squared (equivalent whenever
`0 ≤ radius + dotSize`, which holds for the engine's positive radii). -/
def dotHitTest (b : Ball) (d : Dot) : Bool :=
  (b.x - (d.x : ℚ)) ^ 2 + (b.y - (d.y : ℚ)) ^ 2 ≤ (b.radius + dotSize) ^ 2

/-- Marking one enumerated dot inside the `dots.forEach` of
`checkDotCollisions`: an unhit dot within range is marked hit and its
index appended to `hitDots`; every other dot is kept unchanged. -/
def markDot (b : Ball) (acc : List Dot × List ℕ) (p : ℕ × Dot) : List Dot × List ℕ :=
  if p.2.hit = false ∧ dotHitTest b p.2 then
    (acc.1 ++ [{ p.2 with hit := true }], acc.2 ++ [p.1])
  else (acc.1 ++ [p.2], acc.2)

/-- `checkDotCollisions` (part_009 lines 533-561): skip entirely when the
ball's speed is below `MIN_DAMAGE_VELOCITY` (`Math.sqrt(vx²+vy²) < 5`,
embedded squared), else walk the dots marking new hits. -/
def checkDotCollisions (b : Ball) (dots : List Dot) (hitDots : List ℕ) :
    List Dot × List ℕ :=
  if b.vx * b.vx + b.vy * b.vy < MIN_DAMAGE_VELOCITY ^ 2 then (dots, hitDots)
  else dots.enum.foldl (markDot b) ([], hitDots)

/-- The expected marking of a single dot when the speed gate passes. -/
def markDotFn (b : Ball) (d : Dot) : Dot :=
  if d.hit = false ∧ dotHitTest b d then { d with hit := true } else d

/-- `hitGround` of `update` (part_009 lines 485-488):
`position.y + ballRadius >= CONFIG.PHYSICS.GROUND_Y`. -/
def hitGroundCheck (b : Ball) : Bool := GROUND_Y ≤ b.y + b.radius

/-- `isAtRest` of `update` (part_009 lines 491-493): both velocity
components below `0.1` in absolute value. -/
def isAtRestCheck (b : Ball) : Bool := |b.vx| < 1 / 10 ∧ |b.vy| < 1 / 10

/-- `isOffScreen` of `update` (part_009 lines 494-495):
`position.y > canvas.height + 100`. -/
def isOffScreenCheck (b : Ball) (canvasHeight : ℚ) : Bool :=
  canvasHeight + 100 < b.y

/-- `timeExpired` of `update` (part_009 lines 496-497):
`Date.now() - testFireStartTime > maxWaitTime` (milliseconds). -/
def waitTimeExpiredCheck (elapsedMs : ℚ) : Bool := maxWaitTime < elapsedMs

/-- The settle decision `hitGround || isAtRest || isOffScreen ||
timeExpired` of `update` (part_009 line 499), with the four booleans
computed in source order. -/
def settleEnds (b : Ball) (canvasHeight elapsedMs : ℚ) : Bool :=
  hitGroundCheck b || isAtRestCheck b || isOffScreenCheck b canvasHeight ||
    waitTimeExpiredCheck elapsedMs

/-- Modelled from the spec: the settle conditions as claim C3 states them,
in its order: speed magnitude below `0.1` (embedded squared), off-screen,
ground contact, timeout. -/
def specSettleEnds (b : Ball) (canvasHeight elapsedMs : ℚ) : Bool :=
  (b.vx * b.vx + b.vy * b.vy < (1 / 10) ^ 2) ||
    (canvasHeight + 100 < b.y) ||
    (GROUND_Y ≤ b.y + b.radius) ||
    (maxWaitTime < elapsedMs)

/-- A physics-engine body as the builder reads it while scanning
`physics.engine.world.bodies`: only the `label` drives the scan. -/
structure Body where
  label : String
  x : ℚ
  y : ℚ
deriving DecidableEq

/-- The downward scan of `findCurrentCannonball` (part_009 lines 434-446
and the retry at 456-463): walk the body list from the most recent end,
returning the first body labelled `cannonball`. -/
def findCannonball (bodies : List Body) : Option Body :=
  bodies.reverse.find? fun b => b.label == "cannonball"

/-- Outcome of the find-with-one-retry flow of `findCurrentCannonball`. -/
inductive FindOutcome where
  | found : Body → FindOutcome
  | foundOnRetry : Body → FindOutcome
  | skippedFinished : FindOutcome
  | skippedNext : ℕ → FindOutcome
deriving DecidableEq

/-- `findCurrentCannonball` (part_009 lines 432-478) as a function of the
body-list snapshot right after firing and the snapshot at the delayed
retry: immediate success, success on the single retry, or skip — the
angle counter advances and the builder finishes if it passed the last
angle, else tests the next angle. -/
def findCurrentCannonball (firstScan retryScan : List Body) (currentAngle : ℕ) :
    FindOutcome :=
  match findCannonball firstScan with
  | some b => FindOutcome.found b
  | none =>
    match findCannonball retryScan with
    | some b => FindOutcome.foundOnRetry b
    | none =>
      if builderMaxAngle ≤ currentAngle + 1 then FindOutcome.skippedFinished
      else FindOutcome.skippedNext (currentAngle + 1)

/-- The sequence of angles the builder's sweep tests, from
`testNextAngle` (part_009 lines 407-430): test `currentAngle` while it is
below `maxAngle`, then finish; each completed angle runs
`this.currentAngle++` (line 523).  Fuel-indexed; `builderSweep_eq_range`
shows fuel 360 suffices from angle 0. -/
def builderSweep : ℕ → ℕ → List ℕ
  | 0, _ => []
  | fuel + 1, angle =>
    if builderMaxAngle ≤ angle then []
    else angle :: builderSweep fuel (angle + 1)

/-! ## Shared concrete instances used by witness statements -/

/-- An oracle with all `Math` values zero; only used where the result must
not depend on the oracle at all. -/
def zeroOracle : MathOracle := ⟨0, fun _ => 0, fun _ => 0⟩

/-- Parameters with the target at or behind the cannon. -/
def c4p : SolverParams := ⟨5, 0, 0, 0, 0, 3, 0, 1 / 100⟩

/-! ## Claim C1 -/

/-- Claim C1 as stated is false: in the source the position is advanced
*before* the velocity updates, using the pre-step velocity.  At gravity 10,
zero drag, state `(0,0)` with velocity `(10,0)`, the source step leaves
`y = 0` while the spec's damp-gravity-then-move order would give
`y = 1/10`. -/
theorem claim_C1_counterexample :
    simBodyStep ⟨0, 0, 0, 0, 10, 0, 0, 0⟩ ⟨0, 0, 10, 0⟩ ≠
      specIntegrationStep ⟨0, 0, 0, 0, 10, 0, 0, 0⟩ ⟨0, 0, 10, 0⟩ := by
  intro h
  have hy := congrArg SimState.y h
  norm_num [simBodyStep, specIntegrationStep, timeStep, min_def] at hy

/-- Claim C1 amended: each integration step of the per-angle simulation
first advances the position by the current (pre-step) velocity times `dt`,
then damps the velocity by `1 - min(drag*dt, 0.99)` (when the speed is
positive), and only then increments the vertical velocity by
`gravity*dt`; drag is still applied before gravity. -/
theorem claim_C1 (p : SolverParams) (s : SimState) :
    simBodyStep p s = applyGravity p (applyAirResistance p (advancePosition s)) := by
  unfold simBodyStep advancePosition applyAirResistance applyGravity
  by_cases h : 0 < s.vx * s.vx + s.vy * s.vy
  · simp [h]
  · simp [h]

/-! ## Claim C4 -/

/-- Claim C4: whenever the target x-coordinate is at or behind the launch
origin, `calculateLaunchAngles` returns `null` immediately; the oracle is
arbitrary because no simulation (hence no trigonometry) is consulted. -/
theorem claim_C4 (p : SolverParams) (o : MathOracle)
    (h : p.targetX ≤ p.barrelStartX) : calculateLaunchAngles p o = none := by
  unfold calculateLaunchAngles
  exact if_pos h

/-- Witness for claim C4 at the concrete parameters `c4p` (target x 3,
origin x 5). -/
theorem claim_C4_witness :
    c4p.targetX ≤ c4p.barrelStartX ∧ calculateLaunchAngles c4p zeroOracle = none :=
  ⟨by decide, claim_C4 c4p zeroOracle (by decide)⟩

/-! ## Claim C10 -/

/-- Claim C10: `calculateLaunchAngles` never returns an empty array — the
result is `null` or a non-empty list, so callers can test failure by the
null check alone. -/
theorem claim_C10 (p : SolverParams) (o : MathOracle) :
    calculateLaunchAngles p o = none ∨
      ∃ l, calculateLaunchAngles p o = some l ∧ l ≠ [] := by
  unfold calculateLaunchAngles
  by_cases h0 : p.targetX ≤ p.barrelStartX
  · exact Or.inl (if_pos h0)
  · rw [if_neg h0]
    by_cases h1 :
        0 < (uniqueSolutions (sweepSolutions p o sweepFuel (solverMinAngle o))).length
    · exact Or.inr ⟨_, if_pos h1, List.length_pos.mp h1⟩
    · exact Or.inl (if_neg h1)

/-! ## Deduplication lemmas (lines 99-110 of trajectoryUtils.js) -/

/-- `dedupLoop` only ever appends to the accumulator. -/
lemma dedupLoop_append (rest : List ℚ) : ∀ acc : List ℚ,
    ∃ u, dedupLoop acc rest = acc ++ u ∧ u.Sublist rest := by
  induction rest with
  | nil => exact fun acc => ⟨[], by simp [dedupLoop]⟩
  | cons a rest ih =>
    intro acc
    rw [dedupLoop]
    by_cases hd : isDuplicateOf acc a
    · simp only [hd, if_true]
      obtain ⟨u, hu, hsub⟩ := ih acc
      exact ⟨u, hu, hsub.cons a⟩
    · simp only [hd, if_false]
      obtain ⟨u, hu, hsub⟩ := ih (acc ++ [a])
      exact ⟨a :: u, by simpa using hu, hsub.cons₂ a⟩

/-- Failing the duplicate test means every kept solution is at least
`0.05` rad away. -/
lemma not_isDuplicateOf (acc : List ℚ) (a : ℚ) (h : ¬ isDuplicateOf acc a) :
    ∀ e ∈ acc, 1 / 20 ≤ |e - a| := by
  intro e he
  by_contra hlt
  exact h (List.any_eq_true.mpr ⟨e, he, by simpa using not_le.mp hlt⟩)

/-- `dedupLoop` keeps the accumulator pairwise separated by `0.05` rad. -/
lemma dedupLoop_pairwise (rest : List ℚ) : ∀ acc : List ℚ,
    acc.Pairwise (fun a b => 1 / 20 ≤ |a - b|) →
    (dedupLoop acc rest).Pairwise (fun a b => 1 / 20 ≤ |a - b|) := by
  induction rest with
  | nil => exact fun acc h => h
  | cons a rest ih =>
    intro acc h
    rw [dedupLoop]
    by_cases hd : isDuplicateOf acc a
    · simp only [hd, if_true]; exact ih acc h
    · simp only [hd, if_false]
      refine ih (acc ++ [a]) ?_
      rw [List.pairwise_append]
      refine ⟨h, List.pairwise_singleton _ _, ?_⟩
      intro e he b hb
      rw [List.mem_singleton] at hb
      rw [hb]
      exact not_isDuplicateOf acc a hd e he

/-- Every solution dropped by `dedupLoop` is within `0.05` rad of a kept
one. -/
lemma dedupLoop_covers (rest : List ℚ) : ∀ acc : List ℚ, ∀ a ∈ rest,
    a ∉ dedupLoop acc rest → ∃ b ∈ dedupLoop acc rest, |b - a| < 1 / 20 := by
  induction rest with
  | nil => intro acc a ha; exact absurd ha (List.not_mem_nil a)
  | cons x rest ih =>
    intro acc a ha hnot
    rw [dedupLoop] at hnot ⊢
    by_cases hd : isDuplicateOf acc x
    · simp only [hd, if_true] at hnot ⊢
      rcases List.mem_cons.mp ha with rfl | ha'
      · obtain ⟨e, he, hlt⟩ := List.any_eq_true.mp hd
        obtain ⟨u, hu, -⟩ := dedupLoop_append rest acc
        exact ⟨e, hu ▸ List.mem_append_left u he, by simpa using hlt⟩
      · exact ih acc a ha' hnot
    · simp only [hd, if_false] at hnot ⊢
      rcases List.mem_cons.mp ha with rfl | ha'
      · obtain ⟨u, hu, -⟩ := dedupLoop_append rest (acc ++ [a])
        exact absurd (hu ▸ List.mem_append_left u (by simp)) hnot
      · exact ih (acc ++ [x]) a ha' hnot

/-- Deduplication processes the found solutions left to right: splitting the
input splits the loop, with the prefix's kept solutions as the accumulator
when the suffix is examined. -/
lemma dedupLoop_append_eq (l1 : List ℚ) : ∀ (acc l2 : List ℚ),
    dedupLoop acc (l1 ++ l2) = dedupLoop (dedupLoop acc l1) l2 := by
  induction l1 with
  | nil => intro acc l2; rfl
  | cons a l1 ih =>
    intro acc l2
    simp only [List.cons_append, dedupLoop]
    by_cases hd : isDuplicateOf acc a
    · rw [if_pos hd, if_pos hd]
      exact ih acc l2
    · rw [if_neg hd, if_neg hd]
      exact ih (acc ++ [a]) l2

/-! ## Claim C5 -/

/-- Claim C5: whenever `calculateLaunchAngles` returns a solution list, it is
the source's `uniqueSolutions` of the swept solutions; for any found
solution list, the kept solutions are pairwise at least `0.05` rad apart,
form a subsequence of the found solutions in discovery order, and every
dropped solution sits within `0.05` rad of a kept one; and the selection
keeps the earliest-found of near-duplicates: a solution dropped at position
`l1 ++ a :: l2` of the found list is covered by a solution that was already
kept after processing only the earlier-found prefix `l1` (and survives to
the final output), while a solution not within `0.05` rad of any
earlier-kept solution is always kept itself. -/
theorem claim_C5 (p : SolverParams) (o : MathOracle) :
    (∀ l, calculateLaunchAngles p o = some l →
      l = uniqueSolutions (sweepSolutions p o sweepFuel (solverMinAngle o))) ∧
    (∀ solutions : List ℚ,
      (uniqueSolutions solutions).Pairwise (fun a b => 1 / 20 ≤ |a - b|) ∧
      (uniqueSolutions solutions).Sublist solutions ∧
      ∀ a ∈ solutions, a ∉ uniqueSolutions solutions →
        ∃ b ∈ uniqueSolutions solutions, |b - a| < 1 / 20) ∧
    (∀ (l1 l2 : List ℚ) (a : ℚ), a ∉ uniqueSolutions (l1 ++ a :: l2) →
      ∃ b, b ∈ l1 ∧ b ∈ uniqueSolutions l1 ∧
        b ∈ uniqueSolutions (l1 ++ a :: l2) ∧ |b - a| < 1 / 20) ∧
    (∀ (l1 l2 : List ℚ) (a : ℚ),
      (∀ b ∈ uniqueSolutions l1, 1 / 20 ≤ |b - a|) →
      a ∈ uniqueSolutions (l1 ++ a :: l2)) := by
  refine ⟨?_, ?_, ?_, ?_⟩
  · intro l hl
    unfold calculateLaunchAngles at hl
    by_cases h0 : p.targetX ≤ p.barrelStartX
    · rw [if_pos h0] at hl; exact absurd hl (by simp)
    · rw [if_neg h0] at hl
      by_cases h1 :
          0 < (uniqueSolutions (sweepSolutions p o sweepFuel (solverMinAngle o))).length
      · rw [if_pos h1] at hl
        exact (Option.some_injective _ hl).symm
      · rw [if_neg h1] at hl; exact absurd hl (by simp)
  · intro solutions
    refine ⟨dedupLoop_pairwise solutions [] List.Pairwise.nil, ?_, ?_⟩
    · obtain ⟨u, hu, hsub⟩ := dedupLoop_append solutions []
      simpa [uniqueSolutions, hu] using hsub
    · exact fun a ha hnot => dedupLoop_covers solutions [] a ha hnot
  · intro l1 l2 a hnot
    unfold uniqueSolutions at hnot
    rw [dedupLoop_append_eq l1 [] (a :: l2), dedupLoop] at hnot
    by_cases hd : isDuplicateOf (dedupLoop [] l1) a
    · rw [if_pos hd] at hnot
      obtain ⟨b, hb, hlt⟩ := List.any_eq_true.mp hd
      have hblt : |b - a| < 1 / 20 := by simpa using hlt
      have hres : b ∈ uniqueSolutions (l1 ++ a :: l2) := by
        unfold uniqueSolutions
        rw [dedupLoop_append_eq l1 [] (a :: l2)]
        obtain ⟨u, hu, -⟩ := dedupLoop_append (a :: l2) (dedupLoop [] l1)
        rw [hu]
        exact List.mem_append_left _ hb
      have hl1 : b ∈ l1 := by
        obtain ⟨u, hu, hsub⟩ := dedupLoop_append l1 []
        rw [show dedupLoop [] l1 = u from by simpa using hu] at hb
        exact hsub.subset hb
      exact ⟨b, hl1, hb, hres, hblt⟩
    · rw [if_neg hd] at hnot
      obtain ⟨u, hu, -⟩ := dedupLoop_append l2 (dedupLoop [] l1 ++ [a])
      rw [hu] at hnot
      exact absurd
        (List.mem_append_left _ (List.mem_append_right _ (by simp))) hnot
  · intro l1 l2 a hfar
    unfold uniqueSolutions
    rw [dedupLoop_append_eq l1 [] (a :: l2), dedupLoop]
    have hd : ¬ isDuplicateOf (dedupLoop [] l1) a := by
      intro hdup
      obtain ⟨b, hb, hlt⟩ := List.any_eq_true.mp hdup
      have : |b - a| < 1 / 20 := by simpa using hlt
      exact absurd this (not_lt.mpr (hfar b hb))
    rw [if_neg hd]
    obtain ⟨u, hu, -⟩ := dedupLoop_append l2 (dedupLoop [] l1 ++ [a])
    rw [hu]
    exact List.mem_append_left _ (List.mem_append_right _ (by simp))

/-! ## Termination of the per-angle simulation loop -/

/-- The `while` guard `t <= maxSimulationTime` holds exactly for the first
101 iteration counts. -/
lemma simGuard_iff (k : ℕ) : ((k : ℚ) * timeStep ≤ maxSimulationTime) ↔ k ≤ 100 := by
  rw [timeStep, maxSimulationTime]
  constructor
  · intro h
    by_contra hk
    push_neg at hk
    have h101 : (101 : ℚ) ≤ (k : ℚ) := by exact_mod_cast hk
    nlinarith
  · intro h
    have h100 : (k : ℚ) ≤ 100 := by exact_mod_cast h
    nlinarith

/-- The loop always exits before exhausting fuel that covers the remaining
iterations. -/
lemma simLoop_exits (p : SolverParams) : ∀ fuel k (s : SimState),
    102 ≤ k + fuel → k ≤ 101 → (simLoop p fuel k s).isSome := by
  intro fuel
  induction fuel with
  | zero => intro k s h1 h2; omega
  | succ fuel ih =>
    intro k s h1 h2
    rw [simLoop]
    by_cases hg : (k : ℚ) * timeStep ≤ maxSimulationTime
    · rw [if_pos hg]
      by_cases hhit : distSqToTarget p (simBodyStep p s) ≤ hitTolerance ^ 2
      · simp [hhit]
      · rw [if_neg hhit]
        by_cases hoob : p.targetX + 500 < (simBodyStep p s).x ∨
            p.targetY + 500 < (simBodyStep p s).y
        · simp [hoob]
        · rw [if_neg hoob]
          exact ih (k + 1) (simBodyStep p s) (by omega)
            (by have := (simGuard_iff k).mp hg; omega)
    · simp [hg]

/-- The iteration count at exit never exceeds 101. -/
lemma simLoop_steps_le (p : SolverParams) : ∀ fuel k (s : SimState) r n,
    k ≤ 101 → simLoop p fuel k s = some (r, n) → n ≤ 101 := by
  intro fuel
  induction fuel with
  | zero => intro k s r n _ h; exact absurd h (by simp [simLoop])
  | succ fuel ih =>
    intro k s r n hk h
    rw [simLoop] at h
    by_cases hg : (k : ℚ) * timeStep ≤ maxSimulationTime
    · rw [if_pos hg] at h
      have hk100 := (simGuard_iff k).mp hg
      by_cases hhit : distSqToTarget p (simBodyStep p s) ≤ hitTolerance ^ 2
      · rw [if_pos hhit] at h
        obtain ⟨-, rfl⟩ := Prod.mk.injEq .. ▸ Option.some_injective _ h
        omega
      · rw [if_neg hhit] at h
        by_cases hoob : p.targetX + 500 < (simBodyStep p s).x ∨
            p.targetY + 500 < (simBodyStep p s).y
        · rw [if_pos hoob] at h
          obtain ⟨-, rfl⟩ := Prod.mk.injEq .. ▸ Option.some_injective _ h
          omega
        · rw [if_neg hoob] at h
          exact ih (k + 1) (simBodyStep p s) r n (by omega) h
    · rw [if_neg hg] at h
      obtain ⟨-, rfl⟩ := Prod.mk.injEq .. ▸ Option.some_injective _ h
      omega

/-- The loop result does not depend on the fuel once the fuel covers the
remaining iterations. -/
lemma simLoop_fuel_stable (p : SolverParams) : ∀ fuel1 fuel2 k (s : SimState),
    102 ≤ k + fuel1 → 102 ≤ k + fuel2 → k ≤ 101 →
    simLoop p fuel1 k s = simLoop p fuel2 k s := by
  intro fuel1
  induction fuel1 with
  | zero => intro fuel2 k s h1 h2 hk; omega
  | succ fuel1 ih =>
    intro fuel2 k s h1 h2 hk
    cases fuel2 with
    | zero => omega
    | succ fuel2 =>
      rw [simLoop, simLoop]
      by_cases hg : (k : ℚ) * timeStep ≤ maxSimulationTime
      · rw [if_pos hg, if_pos hg]
        by_cases hhit : distSqToTarget p (simBodyStep p s) ≤ hitTolerance ^ 2
        · rw [if_pos hhit, if_pos hhit]
        · rw [if_neg hhit, if_neg hhit]
          by_cases hoob : p.targetX + 500 < (simBodyStep p s).x ∨
              p.targetY + 500 < (simBodyStep p s).y
          · rw [if_pos hoob, if_pos hoob]
          · rw [if_neg hoob, if_neg hoob]
            exact ih fuel2 (k + 1) (simBodyStep p s) (by omega) (by omega)
              (by have := (simGuard_iff k).mp hg; omega)
      · rw [if_neg hg, if_neg hg]

/-! ## Claim C6 -/

/-- Claim C6: every per-angle simulation run exits after at most 101
iterations of `0.1 s` — on a hit, an out-of-bounds overshoot (500 px past
the target), or the 10 s time cap — and runs identically under any larger
fuel, so each of the sweep's runs performs a fixed, finite amount of
work. -/
theorem claim_C6 (p : SolverParams) (s : SimState) (fuel : ℕ)
    (h : 102 ≤ fuel) :
    simLoop p fuel 0 s = simLoop p 102 0 s ∧
    ∃ r n, simLoop p fuel 0 s = some (r, n) ∧ n ≤ 101 := by
  refine ⟨simLoop_fuel_stable p fuel 102 0 s (by omega) (by omega) (by omega), ?_⟩
  obtain ⟨⟨r, n⟩, hr⟩ := Option.isSome_iff_exists.mp
    (simLoop_exits p fuel 0 s (by omega) (by omega))
  exact ⟨r, n, hr, simLoop_steps_le p fuel 0 s r n (by omega) hr⟩

/-- Parameters and start state for the claim C6 witness: a stationary
projectile far from the target, which runs the loop to the time cap. -/
def c6p : SolverParams := ⟨0, 0, 0, 0, 0, 1000, 1000, 0⟩

/-- Witness for claim C6 at fuel 102 and concrete parameters. -/
theorem claim_C6_witness :
    simLoop c6p 102 0 ⟨0, 0, 0, 0⟩ = simLoop c6p 102 0 ⟨0, 0, 0, 0⟩ ∧
    ∃ r n, simLoop c6p 102 0 ⟨0, 0, 0, 0⟩ = some (r, n) ∧ n ≤ 101 :=
  claim_C6 c6p ⟨0, 0, 0, 0⟩ 102 (by omega)

/-! ## Characterizing the two angle sweeps -/

/-- The builder's sweep from any starting counter lists the remaining
angles below `maxAngle` in order. -/
lemma builderSweep_eq (fuel : ℕ) : ∀ k : ℕ, 360 ≤ k + fuel →
    builderSweep fuel k = (List.range (360 - k)).map fun j => k + j := by
  induction fuel with
  | zero =>
    intro k h
    rw [show 360 - k = 0 from by omega]
    simp [builderSweep]
  | succ fuel ih =>
    intro k h
    rw [builderSweep]
    by_cases hk : builderMaxAngle ≤ k
    · rw [if_pos hk]
      unfold builderMaxAngle at hk
      have : 360 - k = 0 := by omega
      simp [this]
    · rw [if_neg hk]
      unfold builderMaxAngle at hk
      rw [ih (k + 1) (by omega)]
      have h360 : 360 - k = (360 - (k + 1)) + 1 := by omega
      rw [h360, List.range_succ_eq_map, List.map_cons, List.map_map]
      refine congrArg₂ _ (by omega) (List.map_congr_left fun j _ => ?_)
      simp [Function.comp]
      omega

/-- The solver's sweep, started at the k-th candidate angle with enough
fuel, visits exactly the remaining candidates `(k+j-50) * (pi/1800)`. -/
lemma sweepAngles_eq (o : MathOracle) (hpi : 0 < o.pi) :
    ∀ (fuel k : ℕ), 1901 ≤ k + fuel →
    sweepAngles o fuel (((k : ℚ) - 50) * (o.pi / 1800)) =
      (List.range (1901 - k)).map fun j => (((k + j : ℕ) : ℚ) - 50) * (o.pi / 1800) := by
  have hu : 0 < o.pi / 1800 := by positivity
  have hmax : solverMaxAngle o = 1850 * (o.pi / 1800) := by
    unfold solverMaxAngle; ring
  have hstep : angleStepSize o = o.pi / 1800 := by
    unfold angleStepSize; ring
  intro fuel
  induction fuel with
  | zero =>
    intro k h
    rw [show 1901 - k = 0 from by omega]
    simp [sweepAngles]
  | succ fuel ih =>
    intro k h
    rw [sweepAngles]
    by_cases hk : k ≤ 1900
    · have hg : ((k : ℚ) - 50) * (o.pi / 1800) ≤ solverMaxAngle o := by
        rw [hmax, mul_le_mul_right hu]
        have : (k : ℚ) ≤ 1900 := by exact_mod_cast hk
        linarith
      rw [if_pos hg, hstep]
      have hnext : ((k : ℚ) - 50) * (o.pi / 1800) + o.pi / 1800 =
          (((k + 1 : ℕ) : ℚ) - 50) * (o.pi / 1800) := by
        push_cast; ring
      rw [hnext, ih (k + 1) (by omega)]
      have h1901 : 1901 - k = (1901 - (k + 1)) + 1 := by omega
      rw [h1901, List.range_succ_eq_map, List.map_cons, List.map_map]
      refine congrArg₂ _ (by norm_num) (List.map_congr_left fun j _ => ?_)
      simp only [Function.comp]
      congr 1
      push_cast
      ring
    · have hg : ¬ ((k : ℚ) - 50) * (o.pi / 1800) ≤ solverMaxAngle o := by
        rw [hmax, mul_le_mul_right hu]
        intro hle
        have : (1901 : ℚ) ≤ (k : ℚ) := by exact_mod_cast (by omega : 1901 ≤ k)
        linarith
      rw [if_neg hg]
      have : 1901 - k = 0 := by omega
      simp [this]

/-- The solutions the sweep accumulates are exactly the visited angles that
pass the per-angle hit test, in sweep order. -/
lemma sweepSolutions_eq_filter (p : SolverParams) (o : MathOracle) :
    ∀ fuel angle, sweepSolutions p o fuel angle =
      (sweepAngles o fuel angle).filter (angleHits p o) := by
  intro fuel
  induction fuel with
  | zero => intro angle; simp [sweepSolutions, sweepAngles]
  | succ fuel ih =>
    intro angle
    rw [sweepSolutions, sweepAngles]
    by_cases hg : angle ≤ solverMaxAngle o
    · rw [if_pos hg, if_pos hg, ih, List.filter_cons]
      by_cases hh : angleHits p o angle
      · simp [hh]
      · simp [hh]
    · rw [if_neg hg, if_neg hg, List.filter_nil]

/-! ## Claim C9 -/

/-- Claim C9: the builder's sweep tests exactly the integer angles
0..359 (finishing once the counter reaches 360): its angle sequence is
`List.range 360`.  The solver's candidate sweep visits exactly the 1901
angles `(k - 50) * (pi / 1800)` radians for `k = 0..1900` — in degrees,
−5° to 185° in 0.1° steps — and the accumulated solutions are precisely
the visited candidates passing the hit test. -/
theorem claim_C9 :
    (∀ fuel, 360 ≤ fuel → builderSweep fuel 0 = List.range 360) ∧
    (∀ o : MathOracle, 0 < o.pi → ∀ fuel, 1901 ≤ fuel →
      sweepAngles o fuel (solverMinAngle o) =
        (List.range 1901).map fun k : ℕ => ((k : ℚ) - 50) * (o.pi / 1800)) ∧
    (∀ p o fuel angle, sweepSolutions p o fuel angle =
      (sweepAngles o fuel angle).filter (angleHits p o)) := by
  refine ⟨?_, ?_, sweepSolutions_eq_filter⟩
  · intro fuel h
    rw [builderSweep_eq fuel 0 (by omega)]
    simp
  · intro o hpi fuel h
    have hmin : solverMinAngle o = (((0 : ℕ) : ℚ) - 50) * (o.pi / 1800) := by
      unfold solverMinAngle; push_cast; ring
    have hsw := sweepAngles_eq o hpi fuel 0 (by omega)
    rw [Nat.sub_zero] at hsw
    rw [hmin, hsw]
    exact List.map_congr_left fun j _ => by push_cast; ring

/-! ## Claim C3 -/

/-- Claim C3 as stated is false: the source's at-rest test is
component-wise (`|vx| < 0.1 && |vy| < 0.1`), not a speed-magnitude test.
A cannonball gliding at velocity `(0.09, 0.09)` — speed above `0.1` —
on-screen, off the ground and within the time budget ends the wait in the
source, while none of the claim's four conditions holds. -/
theorem claim_C3_counterexample :
    settleEnds ⟨0, 0, 8, 9 / 100, 9 / 100⟩ 600 0 = true ∧
    specSettleEnds ⟨0, 0, 8, 9 / 100, 9 / 100⟩ 600 0 = false := by
  constructor
  · simp only [settleEnds, hitGroundCheck, isAtRestCheck, isOffScreenCheck,
      waitTimeExpiredCheck, GROUND_Y, maxWaitTime, Bool.or_eq_true,
      decide_eq_true_eq]
    norm_num
    rw [abs_of_nonneg (by norm_num : (0 : ℚ) ≤ 9 / 100)]
    norm_num
  · simp only [specSettleEnds, GROUND_Y, maxWaitTime, Bool.or_eq_false_iff,
      decide_eq_false_iff_not]
    norm_num

/-- Claim C3 amended: the builder's wait for the current angle ends exactly
when one of these holds — ground contact (`y + radius ≥ GROUND_Y`, evaluated
first in the source), component-wise rest (`|vx| < 0.1` and `|vy| < 0.1`,
not a speed-magnitude test), off-screen (`y > canvas height + 100`), or
elapsed wait above 10 s (10000 ms). -/
theorem claim_C3 (b : Ball) (canvasHeight elapsedMs : ℚ) :
    settleEnds b canvasHeight elapsedMs = true ↔
      (GROUND_Y ≤ b.y + b.radius ∨ (|b.vx| < 1 / 10 ∧ |b.vy| < 1 / 10) ∨
        canvasHeight + 100 < b.y ∨ maxWaitTime < elapsedMs) := by
  simp [settleEnds, hitGroundCheck, isAtRestCheck, isOffScreenCheck,
    waitTimeExpiredCheck, Bool.or_eq_true, decide_eq_true_eq, or_assoc]

/-! ## Claim C8 -/

/-- Claim C8: when neither the scan right after firing nor the single
retried scan finds a body labelled `cannonball`, the builder advances the
angle counter and either finishes (past the last angle) or tests the next
angle — the sweep never stalls; and the immediate / retry success cases
return the located body. -/
theorem claim_C8 (firstScan retryScan : List Body) (angle : ℕ)
    (h1 : findCannonball firstScan = none)
    (h2 : findCannonball retryScan = none) :
    (findCurrentCannonball firstScan retryScan angle =
      if 360 ≤ angle + 1 then FindOutcome.skippedFinished
      else FindOutcome.skippedNext (angle + 1)) ∧
    (∀ s1 s2 a b, findCannonball s1 = some b →
      findCurrentCannonball s1 s2 a = FindOutcome.found b) ∧
    (∀ s1 s2 a b, findCannonball s1 = none → findCannonball s2 = some b →
      findCurrentCannonball s1 s2 a = FindOutcome.foundOnRetry b) := by
  refine ⟨?_, ?_, ?_⟩
  · simp [findCurrentCannonball, h1, h2, builderMaxAngle]
  · intro s1 s2 a b hb
    simp [findCurrentCannonball, hb]
  · intro s1 s2 a b hb1 hb2
    simp [findCurrentCannonball, hb1, hb2]

/-- Body list for the claim C8 witness: one non-cannonball body. -/
def c8first : List Body := [⟨"ground", 0, 0⟩]

/-- Witness for claim C8: with no cannonball in either scan at angle 5, the
builder skips to angle 6. -/
theorem claim_C8_witness :
    findCurrentCannonball c8first [] 5 = FindOutcome.skippedNext 6 := by
  have h := claim_C8 c8first [] 5 (by decide) (by decide)
  rw [h.1]
  norm_num

/-! ## Claim C7 -/

/-- The dot-marking fold acts element-wise: it appends the per-dot marking
of each enumerated dot to the accumulator. -/
lemma markDot_foldl (b : Ball) : ∀ (l : List Dot) (n : ℕ) (acc : List Dot × List ℕ),
    ((List.enumFrom n l).foldl (markDot b) acc).1 = acc.1 ++ l.map (markDotFn b) := by
  intro l
  induction l with
  | nil => intro n acc; simp
  | cons d l ih =>
    intro n acc
    rw [show List.enumFrom n (d :: l) = (n, d) :: List.enumFrom (n + 1) l from rfl,
      List.foldl_cons, ih (n + 1)]
    by_cases hc : d.hit = false ∧ dotHitTest b d
    · simp [markDot, markDotFn, hc]
    · simp [markDot, markDotFn, hc]

/-- The dot list produced by `checkDotCollisions`: unchanged below the
damage-velocity gate, else the element-wise marking. -/
lemma checkDotCollisions_fst (b : Ball) (dots : List Dot) (hitDots : List ℕ) :
    (checkDotCollisions b dots hitDots).1 =
      if b.vx * b.vx + b.vy * b.vy < MIN_DAMAGE_VELOCITY ^ 2 then dots
      else dots.map (markDotFn b) := by
  unfold checkDotCollisions
  by_cases hs : b.vx * b.vx + b.vy * b.vy < MIN_DAMAGE_VELOCITY ^ 2
  · rw [if_pos hs, if_pos hs]
  · rw [if_neg hs, if_neg hs]
    have h := markDot_foldl b dots 0 ([], hitDots)
    simpa [List.enum] using h

/-- Claim C7: a probe dot turns from unhit to hit only when the ball's
bounding circle reaches it (the source's distance test) while the ball's
speed is at or above `MIN_DAMAGE_VELOCITY`; a slow ball changes nothing,
and a dot already hit stays hit (indeed stays unchanged) through the
check. -/
theorem claim_C7 (b : Ball) (dots : List Dot) (hitDots : List ℕ) (i : ℕ)
    (d : Dot) (hd : dots[i]? = some d) :
    (b.vx * b.vx + b.vy * b.vy < MIN_DAMAGE_VELOCITY ^ 2 →
      checkDotCollisions b dots hitDots = (dots, hitDots)) ∧
    (d.hit = true → ((checkDotCollisions b dots hitDots).1)[i]? = some d) ∧
    (∀ d2, ((checkDotCollisions b dots hitDots).1)[i]? = some d2 →
      d.hit = false → d2.hit = true →
      MIN_DAMAGE_VELOCITY ^ 2 ≤ b.vx * b.vx + b.vy * b.vy ∧
        dotHitTest b d = true) := by
  refine ⟨?_, ?_, ?_⟩
  · intro hs
    unfold checkDotCollisions
    rw [if_pos hs]
  · intro hhit
    rw [checkDotCollisions_fst]
    by_cases hs : b.vx * b.vx + b.vy * b.vy < MIN_DAMAGE_VELOCITY ^ 2
    · rw [if_pos hs]; exact hd
    · rw [if_neg hs, List.getElem?_map, hd, Option.map_some']
      have : markDotFn b d = d := by
        unfold markDotFn
        rw [if_neg (by simp [hhit])]
      rw [this]
  · intro d2 h2 hfalse htrue
    rw [checkDotCollisions_fst] at h2
    by_cases hs : b.vx * b.vx + b.vy * b.vy < MIN_DAMAGE_VELOCITY ^ 2
    · rw [if_pos hs, hd] at h2
      obtain rfl := Option.some_injective _ h2
      rw [hfalse] at htrue
      exact absurd htrue (by simp)
    · rw [if_neg hs, List.getElem?_map, hd, Option.map_some'] at h2
      obtain rfl := Option.some_injective _ h2
      by_cases hc : d.hit = false ∧ dotHitTest b d
      · exact ⟨not_lt.mp hs, hc.2⟩
      · unfold markDotFn at htrue
        rw [if_neg hc, hfalse] at htrue
        exact absurd htrue (by simp)

/-- Dot list for the claim C7 witness: a single unhit dot at the origin. -/
def c7dots : List Dot := [⟨0, 0, false⟩]

/-- Witness for claim C7 at a concrete ball and one-dot grid. -/
theorem claim_C7_witness :
    ((⟨0, 0, 8, 5, 0⟩ : Ball).vx * (⟨0, 0, 8, 5, 0⟩ : Ball).vx +
        (⟨0, 0, 8, 5, 0⟩ : Ball).vy * (⟨0, 0, 8, 5, 0⟩ : Ball).vy <
          MIN_DAMAGE_VELOCITY ^ 2 →
      checkDotCollisions ⟨0, 0, 8, 5, 0⟩ c7dots [] = (c7dots, [])) ∧
    ((⟨0, 0, false⟩ : Dot).hit = true →
      ((checkDotCollisions ⟨0, 0, 8, 5, 0⟩ c7dots []).1)[0]? =
        some ⟨0, 0, false⟩) ∧
    (∀ d2, ((checkDotCollisions ⟨0, 0, 8, 5, 0⟩ c7dots []).1)[0]? = some d2 →
      (⟨0, 0, false⟩ : Dot).hit = false → d2.hit = true →
      MIN_DAMAGE_VELOCITY ^ 2 ≤
          (⟨0, 0, 8, 5, 0⟩ : Ball).vx * (⟨0, 0, 8, 5, 0⟩ : Ball).vx +
            (⟨0, 0, 8, 5, 0⟩ : Ball).vy * (⟨0, 0, 8, 5, 0⟩ : Ball).vy ∧
        dotHitTest ⟨0, 0, 8, 5, 0⟩ ⟨0, 0, false⟩ = true) :=
  claim_C7 ⟨0, 0, 8, 5, 0⟩ c7dots [] 0 ⟨0, 0, false⟩ (by decide)

/-! ## Claim C2: firing-table round trip -/

/-- Grid axis coordinates are multiples of 10. -/
lemma axisPoints_dvd {size : ℕ} {c : ℤ} (h : c ∈ axisPoints size) :
    (10 : ℤ) ∣ c := by
  unfold axisPoints at h
  obtain ⟨i, hi, rfl⟩ := List.mem_map.mp h
  obtain ⟨-, hmod⟩ := List.mem_filter.mp hi
  have hm : i % 10 = 0 := by simpa using hmod
  have hdvd : ((10 : ℕ) : ℤ) ∣ ((i : ℕ) : ℤ) :=
    Int.natCast_dvd_natCast.mpr (Nat.dvd_of_mod_eq_zero hm)
  simpa using hdvd

/-- Rounding to the grid is the identity on coordinates already on the
grid. -/
lemma roundGrid_self {v : ℤ} (h : (10 : ℤ) ∣ v) : roundGrid v = v := by
  obtain ⟨m, rfl⟩ := h
  unfold roundGrid jsRound
  rw [show ((10 * m : ℤ) : ℚ) / 10 = ((m : ℤ) : ℚ) from by push_cast; ring,
    Int.floor_int_add, show ⌊(1 / 2 : ℚ)⌋ = 0 from by norm_num]
  ring

/-- `recordDot` preserves which cells are present in the table. -/
lemma recordDot_isSome (dots : List Dot) (angle : ℕ) (t : FTable) (idx : ℕ)
    (x y : ℤ) : ((recordDot dots angle t idx) x y).isSome = (t x y).isSome := by
  unfold recordDot
  cases hdots : dots[idx]? with
  | none => rfl
  | some dot =>
    by_cases hh : dot.hit = true
    · simp only [hh, if_true]
      cases hcell : t (roundGrid dot.x) (roundGrid dot.y) with
      | none => rfl
      | some l =>
        by_cases hmem : angle ∈ l
        · simp [hmem]
        · simp only [hmem, if_false]
          unfold updateCell
          by_cases hxy : x = roundGrid dot.x ∧ y = roundGrid dot.y
          · rw [if_pos hxy, hxy.1, hxy.2, hcell]
            rfl
          · rw [if_neg hxy]
    · simp [hh]

/-- `recordDot` never removes a recorded angle. -/
lemma recordDot_mem_mono (dots : List Dot) (angle : ℕ) (t : FTable) (idx : ℕ)
    (x y : ℤ) (a : ℕ) (h : a ∈ lookupAngles t x y) :
    a ∈ lookupAngles (recordDot dots angle t idx) x y := by
  unfold recordDot
  cases hdots : dots[idx]? with
  | none => exact h
  | some dot =>
    by_cases hh : dot.hit = true
    · simp only [hh, if_true]
      cases hcell : t (roundGrid dot.x) (roundGrid dot.y) with
      | none => exact h
      | some l =>
        by_cases hmem : angle ∈ l
        · simp only [hmem, if_true]; exact h
        · simp only [hmem, if_false]
          unfold lookupAngles at h ⊢
          unfold updateCell
          by_cases hxy : x = roundGrid dot.x ∧ y = roundGrid dot.y
          · rw [if_pos hxy]
            rw [hxy.1, hxy.2, hcell] at h
            simp only [Option.getD_some] at h ⊢
            exact List.mem_append_left _ h
          · rw [if_neg hxy]; exact h
    · simp only [hh, if_false]; exact h

/-- When the table has the dot's rounded cell, `recordDot` on a hit dot
records the angle there. -/
lemma recordDot_mem_self (dots : List Dot) (angle : ℕ) (t : FTable) (idx : ℕ)
    (d : Dot) (hdot : dots[idx]? = some d) (hhit : d.hit = true)
    (hsome : (t (roundGrid d.x) (roundGrid d.y)).isSome = true) :
    angle ∈ lookupAngles (recordDot dots angle t idx)
      (roundGrid d.x) (roundGrid d.y) := by
  unfold recordDot
  rw [hdot]
  simp only [hhit, if_true]
  cases hcell : t (roundGrid d.x) (roundGrid d.y) with
  | none => rw [hcell] at hsome; exact absurd hsome (by simp)
  | some l =>
    by_cases hmem : angle ∈ l
    · simp only [hmem, if_true]
      unfold lookupAngles
      rw [hcell]
      simpa using hmem
    · simp only [hmem, if_false]
      unfold lookupAngles updateCell
      rw [if_pos ⟨rfl, rfl⟩]
      simp

/-- The fold of `recordHitsForAngle` preserves recorded angles. -/
lemma recordHitsForAngle_mem_mono (dots : List Dot) (angle : ℕ) :
    ∀ (hd : List ℕ) (t : FTable) (x y : ℤ) (a : ℕ),
    a ∈ lookupAngles t x y →
    a ∈ lookupAngles (recordHitsForAngle dots hd angle t) x y := by
  intro hd
  induction hd with
  | nil => intro t x y a h; exact h
  | cons i hd ih =>
    intro t x y a h
    unfold recordHitsForAngle at ih ⊢
    rw [List.foldl_cons]
    exact ih _ x y a (recordDot_mem_mono dots angle t i x y a h)

/-- The fold of `recordHitsForAngle` preserves which cells are present. -/
lemma recordHitsForAngle_isSome (dots : List Dot) (angle : ℕ) :
    ∀ (hd : List ℕ) (t : FTable) (x y : ℤ),
    ((recordHitsForAngle dots hd angle t) x y).isSome = (t x y).isSome := by
  intro hd
  induction hd with
  | nil => intro t x y; rfl
  | cons i hd ih =>
    intro t x y
    unfold recordHitsForAngle at ih ⊢
    rw [List.foldl_cons, ih, recordDot_isSome]

/-- `recordHitsForAngle` records the angle at the rounded cell of every hit
dot listed in `hitDots`, provided the cell is present. -/
lemma recordHitsForAngle_mem (dots : List Dot) (angle : ℕ) :
    ∀ (hd : List ℕ) (t : FTable) (idx : ℕ) (d : Dot), idx ∈ hd →
    dots[idx]? = some d → d.hit = true →
    (t (roundGrid d.x) (roundGrid d.y)).isSome = true →
    angle ∈ lookupAngles (recordHitsForAngle dots hd angle t)
      (roundGrid d.x) (roundGrid d.y) := by
  intro hd
  induction hd with
  | nil => intro t idx d h; exact absurd h (List.not_mem_nil idx)
  | cons i hd ih =>
    intro t idx d hmem hdot hhit hsome
    unfold recordHitsForAngle
    rw [List.foldl_cons]
    rcases List.mem_cons.mp hmem with rfl | hmem2
    · exact recordHitsForAngle_mem_mono dots angle hd _ _ _ angle
        (recordDot_mem_self dots angle t idx d hdot hhit hsome)
    · exact ih (recordDot dots angle t i) idx d hmem2 hdot hhit
        (by rw [recordDot_isSome]; exact hsome)

/-- Stripping empty cells keeps every recorded angle. -/
lemma cleanTable_mem (t : FTable) (x y : ℤ) (a : ℕ)
    (h : a ∈ lookupAngles t x y) : a ∈ lookupAngles (cleanTable t) x y := by
  unfold lookupAngles at h ⊢
  unfold cleanTable
  cases ht : t x y with
  | none => rw [ht] at h; exact absurd h (by simp)
  | some l =>
    rw [ht] at h
    by_cases hl : l = []
    · rw [hl] at h; exact absurd h (by simp)
    · simp only [hl, if_false]
      exact h

/-- A cell with no recorded angle reads as empty from the finished table. -/
lemma cleanTable_empty (t : FTable) (x y : ℤ)
    (h : lookupAngles t x y = []) : lookupAngles (cleanTable t) x y = [] := by
  unfold lookupAngles at h ⊢
  unfold cleanTable
  cases ht : t x y with
  | none => simp
  | some l =>
    rw [ht] at h
    simp only [Option.getD_some] at h
    simp [h]

/-- One RecordHits phase of a build: the dot states, collected hit
indices, and angle of one tested angle's recording step. -/
structure RecordStep where
  dots : List Dot
  hitDots : List ℕ
  angle : ℕ

/-- The remainder of a build as the table sees it: the sequence of
`recordHitsForAngle` applications of the successive tested angles. -/
def runRecordings (steps : List RecordStep) (t : FTable) : FTable :=
  steps.foldl (fun acc st => recordHitsForAngle st.dots st.hitDots st.angle acc) t

/-- The dot index `idx` records into cell `(x, y)`: it names a hit dot
whose rounded grid cell is `(x, y)`. -/
def touchesCell (dots : List Dot) (idx : ℕ) (x y : ℤ) : Prop :=
  ∃ d, dots[idx]? = some d ∧ d.hit = true ∧ roundGrid d.x = x ∧ roundGrid d.y = y

/-- Frame lemma: `recordDot` leaves every cell it does not record into
unchanged. -/
lemma recordDot_frame (dots : List Dot) (angle : ℕ) (t : FTable) (idx : ℕ)
    (x y : ℤ) (h : ¬ touchesCell dots idx x y) :
    recordDot dots angle t idx x y = t x y := by
  unfold recordDot
  cases hdots : dots[idx]? with
  | none => rfl
  | some d =>
    by_cases hh : d.hit = true
    · simp only [hh, if_true]
      cases hcell : t (roundGrid d.x) (roundGrid d.y) with
      | none => rfl
      | some l =>
        by_cases hmem : angle ∈ l
        · simp [hmem]
        · simp only [hmem, if_false]
          unfold updateCell
          rw [if_neg]
          exact fun hxy => h ⟨d, hdots, hh, hxy.1.symm, hxy.2.symm⟩
    · simp [hh]

/-- Frame lemma for one full `recordHitsForAngle`: a cell recorded into by
none of the listed hit-dot indices is unchanged. -/
lemma recordHitsForAngle_frame (dots : List Dot) (angle : ℕ) :
    ∀ (hd : List ℕ) (t : FTable) (x y : ℤ),
    (∀ idx ∈ hd, ¬ touchesCell dots idx x y) →
    recordHitsForAngle dots hd angle t x y = t x y := by
  intro hd
  induction hd with
  | nil => intro t x y _; rfl
  | cons i hd ih =>
    intro t x y h
    unfold recordHitsForAngle at ih ⊢
    rw [List.foldl_cons, ih _ x y fun idx hidx => h idx (List.mem_cons_of_mem i hidx),
      recordDot_frame dots angle t i x y (h i (List.mem_cons_self i hd))]

/-- Recorded angles survive the entire remainder of a build. -/
lemma runRecordings_mem_mono : ∀ (steps : List RecordStep) (t : FTable)
    (x y : ℤ) (a : ℕ), a ∈ lookupAngles t x y →
    a ∈ lookupAngles (runRecordings steps t) x y := by
  intro steps
  induction steps with
  | nil => intro t x y a h; exact h
  | cons st steps ih =>
    intro t x y a h
    unfold runRecordings at ih ⊢
    rw [List.foldl_cons]
    exact ih _ x y a (recordHitsForAngle_mem_mono st.dots st.angle st.hitDots t x y a h)

/-- Frame lemma for a whole build remainder: a cell recorded into by no
step is unchanged. -/
lemma runRecordings_frame : ∀ (steps : List RecordStep) (t : FTable) (x y : ℤ),
    (∀ st ∈ steps, ∀ idx ∈ st.hitDots, ¬ touchesCell st.dots idx x y) →
    runRecordings steps t x y = t x y := by
  intro steps
  induction steps with
  | nil => intro t x y _; rfl
  | cons st steps ih =>
    intro t x y h
    unfold runRecordings at ih ⊢
    rw [List.foldl_cons,
      ih _ x y fun st2 hst2 => h st2 (List.mem_cons_of_mem st hst2),
      recordHitsForAngle_frame st.dots st.angle st.hitDots t x y
        (h st (List.mem_cons_self st steps))]

/-- Every cell of the freshly initialized table reads as empty: present
cells hold the empty list and all other cells are absent. -/
lemma initFiringTable_lookup_empty (W H : ℕ) (x y : ℤ) :
    lookupAngles (initFiringTable W H) x y = [] := by
  unfold lookupAngles initFiringTable
  by_cases h : x ∈ axisPoints W ∧ y ∈ axisPoints H
  · rw [if_pos h]; rfl
  · rw [if_neg h]; rfl

/-- Claim C2: a probe dot marked hit while testing angle `A` lies on the
10 px grid, so its rounded cell is itself; after `recordHitsForAngle` the
table's entry at that cell contains `A`; the entry survives the entire
remainder of the build (any sequence of later recording steps only
appends), and stripping empty cells for the finished table keeps it, so
looking the rounded cell up in the finished table returns a list
containing `A`.  Conversely a cell that no step of a build (started from
the initialized table) ever records into still reads as empty from the
finished table. -/
theorem claim_C2 (W H : ℕ) (dots : List Dot) (hitDots : List ℕ)
    (angle idx : ℕ) (d : Dot) (t : FTable)
    (hdom : ∀ x y, (t x y).isSome = (initFiringTable W H x y).isSome)
    (hdots : ∀ dd ∈ dots, dd.x ∈ axisPoints W ∧ dd.y ∈ axisPoints H)
    (hidx : idx ∈ hitDots) (hdot : dots[idx]? = some d)
    (hhit : d.hit = true) :
    (roundGrid d.x = d.x ∧ roundGrid d.y = d.y) ∧
    angle ∈ lookupAngles (recordHitsForAngle dots hitDots angle t)
      (roundGrid d.x) (roundGrid d.y) ∧
    (∀ steps : List RecordStep, angle ∈ lookupAngles
      (runRecordings steps (recordHitsForAngle dots hitDots angle t))
      (roundGrid d.x) (roundGrid d.y)) ∧
    (∀ steps : List RecordStep, angle ∈ lookupAngles
      (cleanTable (runRecordings steps (recordHitsForAngle dots hitDots angle t)))
      (roundGrid d.x) (roundGrid d.y)) ∧
    (∀ (W2 H2 : ℕ) (steps : List RecordStep) (x y : ℤ),
      (∀ st ∈ steps, ∀ idx2 ∈ st.hitDots, ¬ touchesCell st.dots idx2 x y) →
      lookupAngles (cleanTable (runRecordings steps (initFiringTable W2 H2)))
        x y = []) := by
  have hdmem : d ∈ dots := List.getElem?_mem hdot
  obtain ⟨hax, hay⟩ := hdots d hdmem
  have hrx : roundGrid d.x = d.x := roundGrid_self (axisPoints_dvd hax)
  have hry : roundGrid d.y = d.y := roundGrid_self (axisPoints_dvd hay)
  have hsome : (t (roundGrid d.x) (roundGrid d.y)).isSome = true := by
    rw [hrx, hry, hdom]
    unfold initFiringTable
    rw [if_pos ⟨hax, hay⟩]
    rfl
  have hmem := recordHitsForAngle_mem dots angle hitDots t idx d hidx hdot hhit hsome
  have hrun : ∀ steps : List RecordStep, angle ∈ lookupAngles
      (runRecordings steps (recordHitsForAngle dots hitDots angle t))
      (roundGrid d.x) (roundGrid d.y) :=
    fun steps => runRecordings_mem_mono steps _ _ _ angle hmem
  refine ⟨⟨hrx, hry⟩, hmem, hrun,
    fun steps => cleanTable_mem _ _ _ angle (hrun steps), ?_⟩
  intro W2 H2 steps x y hframe
  refine cleanTable_empty _ x y ?_
  have hfr := runRecordings_frame steps (initFiringTable W2 H2) x y hframe
  have hinit := initFiringTable_lookup_empty W2 H2 x y
  unfold lookupAngles at hinit ⊢
  rw [hfr]
  exact hinit

/-- Dot list for the claim C2 witness: one dot at the origin, marked hit. -/
def c2dots : List Dot := [⟨0, 0, true⟩]

/-- Witness for claim C2: a canvas of 10 by 10 px, whose grid is the single
cell at the origin, with its dot hit while testing angle 7. -/
theorem claim_C2_witness :
    (roundGrid (0 : ℤ) = 0 ∧ roundGrid (0 : ℤ) = 0) ∧
    7 ∈ lookupAngles
      (recordHitsForAngle c2dots [0] 7 (initFiringTable 10 10))
      (roundGrid (0 : ℤ)) (roundGrid (0 : ℤ)) ∧
    (∀ steps : List RecordStep, 7 ∈ lookupAngles
      (runRecordings steps (recordHitsForAngle c2dots [0] 7 (initFiringTable 10 10)))
      (roundGrid (0 : ℤ)) (roundGrid (0 : ℤ))) ∧
    (∀ steps : List RecordStep, 7 ∈ lookupAngles
      (cleanTable (runRecordings steps
        (recordHitsForAngle c2dots [0] 7 (initFiringTable 10 10))))
      (roundGrid (0 : ℤ)) (roundGrid (0 : ℤ))) ∧
    (∀ (W2 H2 : ℕ) (steps : List RecordStep) (x y : ℤ),
      (∀ st ∈ steps, ∀ idx2 ∈ st.hitDots, ¬ touchesCell st.dots idx2 x y) →
      lookupAngles (cleanTable (runRecordings steps (initFiringTable W2 H2)))
        x y = []) :=
  claim_C2 10 10 c2dots [0] 7 0 ⟨0, 0, true⟩ (initFiringTable 10 10)
    (fun x y => rfl) (by decide) (by decide) (by decide) (by decide)

end IdleCannon
